import Mathlib

/-!
Shallow embedding of `ngx-link-preview.component.ts` (ngx-link-preview-v13).

JS strings are modelled as Lean `String` / `List Char`; `btoa` works on
UTF-16 code units, which for characters below 0x10000 coincide with
`Char.toNat`, so a string is btoa-encodable iff every `Char.toNat < 256`
(astral characters split into surrogates ≥ 0xD800 > 255, and their Lean
code point is also ≥ 0x10000 > 255, so the two conditions agree).
-/

namespace NgxLinkPreview

/-- The base64 alphabet used by `btoa`, as a list of characters. -/
def base64Alphabet : List Char :=
  "ABCDEFGHIJKLMNOPQRSTUVWXYZabcdefghijklmnopqrstuvwxyz0123456789+/".data

/-- Character of the base64 alphabet at index `n` (for `n < 64`). -/
def b64Char (n : Nat) : Char := base64Alphabet.getD n 'A'

/-- Index of a character in the base64 alphabet, `none` if absent
(in particular `b64Val (Char.ofNat 61) = none` for the pad character). -/
def b64Val (c : Char) : Option Nat := base64Alphabet.findIdx? (· = c)

/-- Base64 encoding of a byte sequence, exactly as `btoa` produces it:
three input bytes become four alphabet characters, a trailing group of one
or two bytes is padded with `=`. -/
def btoa : List Nat → List Char
  | [] => []
  | [a] => [b64Char (a / 4), b64Char (a % 4 * 16), '=', '=']
  | [a, b] => [b64Char (a / 4), b64Char (a % 4 * 16 + b / 16), b64Char (b % 16 * 4), '=']
  | a :: b :: c :: rest =>
    b64Char (a / 4) :: b64Char (a % 4 * 16 + b / 16) ::
    b64Char (b % 16 * 4 + c / 64) :: b64Char (c % 64) :: btoa rest

/-- Base64 decoding of a padded base64 string (`atob`): four characters at
a time, with `=` padding allowed only in the final group. Returns `none`
on input that `atob` would reject. -/
def atob : List Char → Option (List Nat)
  | [] => some []
  | w :: x :: y :: z :: rest =>
    (b64Val w).bind fun a =>
    (b64Val x).bind fun b =>
    if z = '=' then
      if rest = [] then
        if y = '=' then
          some [a * 4 + b / 16]
        else
          (b64Val y).bind fun c => some [a * 4 + b / 16, b % 16 * 16 + c / 4]
      else none
    else
      (b64Val y).bind fun c =>
      (b64Val z).bind fun d =>
      (atob rest).bind fun tail =>
      some ((a * 4 + b / 16) :: (b % 16 * 16 + c / 4) :: (c % 4 * 64 + d) :: tail)
  | _ => none

/-- The characters `encodeURI` leaves unescaped (ECMA-262: uriAlpha,
decimal digits, uriMark, uriReserved and `#`). -/
def isUriUnescaped (c : Char) : Bool :=
  c.isAlpha || c.isDigit || "-_.!~*\x27();/?:@&=+$,#".data.contains c

/-- Hexadecimal digit character for `n < 16`, upper case as produced by
`encodeURI`. -/
def hexDigit (n : Nat) : Char := "0123456789ABCDEF".data.getD n '0'

/-- Numeric value of a hexadecimal digit character (0 for non-digits). -/
def hexVal (c : Char) : Nat :=
  if c.isDigit then c.toNat - 48
  else if 'A' ≤ c ∧ c ≤ 'F' then c.toNat - 55
  else if 'a' ≤ c ∧ c ≤ 'f' then c.toNat - 87
  else 0

/-- UTF-8 encoding of a single code point, used by `encodeURI` for the
characters it escapes. -/
def utf8Bytes (n : Nat) : List Nat :=
  if n < 128 then [n]
  else if n < 2048 then [192 + n / 64, 128 + n % 64]
  else if n < 65536 then [224 + n / 4096, 128 + n / 64 % 64, 128 + n % 64]
  else [240 + n / 262144, 128 + n / 4096 % 64, 128 + n / 64 % 64, 128 + n % 64]

/-- `encodeURI` on a single character: unescaped characters pass through,
anything else becomes `%XX` percent escapes of its UTF-8 bytes. -/
def encodeURIChar (c : Char) : List Char :=
  if isUriUnescaped c then [c]
  else (utf8Bytes c.toNat).flatMap fun b => ['%', hexDigit (b / 16), hexDigit (b % 16)]

/-- `encodeURI` over a character sequence. -/
def encodeURI (l : List Char) : List Char := l.flatMap encodeURIChar

/-- URI-unescaping: a `%XX` escape becomes the character with that code,
other characters pass through (sufficient for the ASCII range this
development decodes). -/
def uriUnescape : List Char → List Char
  | [] => []
  | '%' :: h1 :: h2 :: r => Char.ofNat (hexVal h1 * 16 + hexVal h2) :: uriUnescape r
  | c :: rest => c :: uriUnescape rest

/-- Error raised by `btoa` on a character outside the Latin-1 range. -/
inductive EncodingError where
  | invalidCharacter : EncodingError
deriving DecidableEq, Repr

/-- `encodeUrlSafe` from the component: `encodeURI(btoa(url))`. `btoa`
throws `InvalidCharacterError` when the string has a code unit above 255;
this is modelled by the `Except` result. -/
def encodeUrlSafe (url : String) : Except EncodingError String :=
  if url.data.all (fun c => c.toNat < 256) then
    .ok (String.mk (encodeURI (btoa (url.data.map Char.toNat))))
  else .error .invalidCharacter

/-- The decoding direction named by the spec: URI-unescape, then
base64-decode, then reassemble the string from the recovered code units. -/
def decodeKey (key : String) : Option String :=
  (atob (uriUnescape key.data)).map fun bytes => String.mk (bytes.map Char.ofNat)

/-- Characters allowed in the query component of a URI by RFC 3986
(`query = *( pchar / "/" / "?" )` with `pchar` = unreserved, sub-delims,
`:` and `@`; percent signs excluded here since the key contains none). -/
def isUriQueryValueChar (c : Char) : Bool :=
  c.isAlpha || c.isDigit || "-._~!$&\x27()*+,;=:@/?".data.contains c

/-- Character class `[-a-zA-Z0-9@:%._+~#=]` (host part). -/
def classA (c : Char) : Bool := c.isAlpha || c.isDigit || "-@:%._+~#=".data.contains c

/-- Character class `[a-zA-Z0-9()]` (TLD-like token). -/
def classB (c : Char) : Bool := c.isAlpha || c.isDigit || c = '(' || c = ')'

/-- Character class `[-a-zA-Z0-9()@:%_+.~#?&/=]` (path/query/fragment). -/
def classC (c : Char) : Bool := c.isAlpha || c.isDigit || "-()@:%_+.~#?&/=".data.contains c

/-- Word character for the `\b` boundary assertion (`[A-Za-z0-9_]`). -/
def isWordChar (c : Char) : Bool := c.isAlpha || c.isDigit || c = '_'

/-- Whether the character at position `i` exists and is a word character. -/
def isWordAt (s : List Char) (i : Nat) : Bool :=
  match s[i]? with
  | some c => isWordChar c
  | none => false

/-- The `\b` word-boundary assertion at position `p` (positions before the
start or past the end count as non-word). -/
def wordBoundary (s : List Char) (p : Nat) : Bool :=
  ((p != 0) && isWordAt s (p - 1)) != isWordAt s p

/-- Case-insensitive literal match at position `i` (the regex carries the
`i` flag); returns the position after the literal. -/
def litCI : List Char → List Char → Nat → Option Nat
  | [], _, i => some i
  | c :: cs, s, i =>
    match s[i]? with
    | some d => if d.toLower = c.toLower then litCI cs s (i + 1) else none
    | none => none

/-- Length of the run of characters satisfying `cls` starting at `i`. -/
def runLen (cls : Char → Bool) (s : List Char) (i : Nat) : Nat :=
  ((s.drop i).takeWhile cls).length

/-- Positions reachable by consuming between `lo` and `hi` characters of
class `cls` starting at `i`, in greedy (longest-first) backtracking order
of a `{lo,hi}` quantifier over a character class. -/
def repPositions (cls : Char → Bool) (s : List Char) (i lo hi : Nat) : List Nat :=
  let m := min (runLen cls s i) hi
  if m < lo then [] else (List.range (m + 1 - lo)).map fun k => i + (m - k)

/-- Positions for an optional literal (`s?`, `(www\.)?`): consume first
(greedy), then skip. -/
def optPositions (lit : List Char) (s : List Char) (i : Nat) : List Nat :=
  match litCI lit s i with
  | some j => [j, i]
  | none => [i]

/-- One attempt of the component's URL regex
`https?:\/\/(www\.)?[-a-zA-Z0-9@:%._+~#=]{1,256}\.[a-zA-Z0-9()]{1,6}\b([-a-zA-Z0-9()@:%_+.~#?&\/=]*)`
(flags `gim`) at start position `i`, with alternatives tried in the
engine's priority order (greedy quantifiers longest first): `some e` is
the end of the match the engine reports, `none` if no match starts at
`i`. -/
def matchAt (s : List Char) (i : Nat) : Option Nat :=
  (litCI "http".data s i).bind fun i1 =>
  (optPositions ['s'] s i1).findSome? fun i2 =>
  (litCI "://".data s i2).bind fun i3 =>
  (optPositions "www.".data s i3).findSome? fun i4 =>
  (repPositions classA s i4 1 256).findSome? fun i5 =>
  (if s[i5]? = some '.' then some (i5 + 1) else none).bind fun i6 =>
  (repPositions classB s i6 1 6).findSome? fun i7 =>
  if wordBoundary s i7 then some (i7 + runLen classC s i7) else none

/-- Global scan (`msg.match(...)` with the `g` flag): successive
non-overlapping matches left to right, resuming after each match; `fuel`
bounds the recursion (any value ≥ `s.length` suffices since the position
strictly advances). -/
def scanLinks (s : List Char) : Nat → Nat → List (List Char)
  | 0, _ => []
  | fuel + 1, i =>
    if i < s.length then
      match matchAt s i with
      | some e => ((s.drop i).take (e - i)) :: scanLinks s fuel e
      | none => scanLinks s fuel (i + 1)
    else []

/-- `parseStringForLinks` from the component: `msg.match(urlRegex)`,
with a `null` result (no match anywhere) rendered as `[]`. -/
def parseStringForLinks (msg : String) : List String :=
  (scanLinks msg.data msg.data.length 0).map String.mk

/-- Modelled from the spec: the `OpenGraphMetaData` record (its interface
file is not among the provided sources). Spec §3 and §9 name the optional
attributes `title`, `description`, `siteName`, `url`; the component reads
the image under the `og:image` property and the origin domain under
`source` unconditionally in `getSanitizedImageUrl`, so those two are kept
as plain strings. -/
structure OpenGraphMetaData where
  title : Option String := none
  description : Option String := none
  siteName : Option String := none
  url : Option String := none
  «og:image» : String := ""
  source : String := ""
deriving DecidableEq, Repr

/-- Modelled from the spec: `NgxLinkPreviewCacheService.getCacheItem`
(§4.3 `get`): lookup with no side effect, `none` when absent. The store
is an association list whose most recent binding shadows older ones. -/
def getCacheItem (cache : List (String × OpenGraphMetaData)) (key : String) :
    Option OpenGraphMetaData :=
  (cache.find? (fun e => e.1 = key)).map (·.2)

/-- Modelled from the spec: `NgxLinkPreviewCacheService.updateCacheItem`
(§4.3 `put`): inserts or overwrites the binding for `key`. -/
def updateCacheItem (cache : List (String × OpenGraphMetaData)) (key : String)
    (v : OpenGraphMetaData) : List (String × OpenGraphMetaData) :=
  (key, v) :: cache.filter (fun e => ¬ e.1 = key)

/-- Modelled from the spec: `NgxLinkPreviewLoadingManager.addTask` (§4.4):
marks a key pending, idempotent (set semantics). -/
def addTask (pending : List String) (key : String) : List String :=
  if key ∈ pending then pending else key :: pending

/-- Modelled from the spec: `NgxLinkPreviewLoadingManager.removeTask`
(§4.4): clears a key from the pending set, no-op when absent. -/
def removeTask (pending : List String) (key : String) : List String :=
  pending.filter (fun k => ¬ k = key)

/-- JS truthiness of a possibly-missing string: `undefined`, `null` and
`""` are falsy. -/
def strTruthy : Option String → Bool
  | none => false
  | some s => s ≠ ""

/-- The component state the orchestration core touches: the `@Input()`
fields it consumes, the component-local `scannedLinks` and `previews`
arrays, and the state of the shared cache service and loading manager.
The injected `getApiEndpoint$` function is opaque and asynchronous: only
its presence matters to `init` (`hasGetApiEndpoint`); the requests it is
invoked with are recorded as dispatches, and its completions are
delivered by `fetchComplete`. -/
structure ComponentState where
  links : Option (List String) := some []
  parseForLinksStr : Option String := none
  apiRoute : Option String := none
  hasGetApiEndpoint : Bool := true
  queryParamName : String := "url"
  useCache : Bool := true
  scannedLinks : List String := []
  previews : List OpenGraphMetaData := []
  cache : List (String × OpenGraphMetaData) := []
  pending : List String := []
deriving DecidableEq, Repr

/-- The synchronous exceptions `init` can raise: the two configuration
errors thrown by `checkInputParameters`, and the `InvalidCharacterError`
propagating out of `encodeUrlSafe` (no try/catch exists in `init`). -/
inductive InitError where
  | missingApiRoute
  | missingGetApiEndpoint
  | encodingError (link : String)
deriving DecidableEq, Repr

/-- Result of one `init` trigger: the component state after the
synchronous part of the run (mutations made before a throw persist, as
they do on the JS object), the fetches dispatched by the run as
(encoded key, request URL) pairs in dispatch order, and the raised
error, if any. -/
structure InitResult where
  state : ComponentState
  dispatches : List (String × String) := []
  err : Option InitError := none
deriving DecidableEq, Repr

/-- Links contributed by the free-text input: `init` consults the
extractor only behind the `if (this.parseForLinksStr)` truthiness guard. -/
def extractedLinks : Option String → List String
  | none => []
  | some s => if s = "" then [] else parseStringForLinks s

/-- The per-link loop of `init` (component lines 117–132): on a cache hit
(with `useCache` on) the cached record is appended synchronously;
otherwise the key is registered with the loading manager and a fetch for
the request URL is dispatched. A `btoa` failure propagates: the loop
stops there and the error is reported. -/
def initLoop (st : ComponentState) (ds : List (String × String)) :
    List String → InitResult
  | [] => ⟨st, ds, none⟩
  | link :: rest =>
    match encodeUrlSafe link with
    | .error _ => ⟨st, ds, some (.encodingError link)⟩
    | .ok encodedLink =>
      let requestUrl := st.apiRoute.getD "" ++ "?" ++ st.queryParamName ++ "=" ++ encodedLink
      if st.useCache then
        match getCacheItem st.cache encodedLink with
        | some item => initLoop { st with previews := st.previews ++ [item] } ds rest
        | none =>
          initLoop { st with pending := addTask st.pending encodedLink }
            (ds ++ [(encodedLink, requestUrl)]) rest
      else
        initLoop { st with pending := addTask st.pending encodedLink }
          (ds ++ [(encodedLink, requestUrl)]) rest

/-- `init` (component lines 103–133): reset `scannedLinks` and
`previews`, check the required inputs (the reset stays in effect when a
check throws), build the candidate list from the extracted and the
explicit links, then run the per-link loop. -/
def init (st : ComponentState) : InitResult :=
  let st1 := { st with scannedLinks := ([] : List String), previews := ([] : List OpenGraphMetaData) }
  if ¬ strTruthy st1.apiRoute then
    ⟨st1, [], some .missingApiRoute⟩
  else if ¬ st1.hasGetApiEndpoint then
    ⟨st1, [], some .missingGetApiEndpoint⟩
  else
    let st2 :=
      if strTruthy st1.parseForLinksStr then
        { st1 with scannedLinks :=
            st1.scannedLinks ++ parseStringForLinks (st1.parseForLinksStr.getD "") }
      else st1
    let st3 :=
      match st2.links with
      | some ls =>
        if ls.length ≠ 0 then { st2 with scannedLinks := st2.scannedLinks ++ ls } else st2
      | none => st2
    initLoop st3 [] st3.scannedLinks

/-- The three mutations of the fetch-completion callback (component
lines 127–129) as primitive operations, in source order. -/
inductive CallbackOp where
  | updateCache (key : String) (resp : OpenGraphMetaData)
  | removeTaskOp (key : String)
  | pushPreview (resp : OpenGraphMetaData)
deriving DecidableEq, Repr

/-- Effect of one callback operation on the component state. -/
def applyOp (st : ComponentState) : CallbackOp → ComponentState
  | .updateCache key resp => { st with cache := updateCacheItem st.cache key resp }
  | .removeTaskOp key => { st with pending := removeTask st.pending key }
  | .pushPreview resp => { st with previews := st.previews ++ [resp] }

/-- Run a sequence of callback operations left to right. -/
def runOps (st : ComponentState) (ops : List CallbackOp) : ComponentState :=
  ops.foldl applyOp st

/-- The body of the `subscribe` callback, in source order: store the
response in the cache, then deregister the key from the loading manager,
then append the response to the previews. -/
def fetchCallbackOps (key : String) (resp : OpenGraphMetaData) : List CallbackOp :=
  [.updateCache key resp, .removeTaskOp key, .pushPreview resp]

/-- A fetch completion delivered for `key` with response `resp`: the
callback run to the end. -/
def fetchComplete (st : ComponentState) (key : String) (resp : OpenGraphMetaData) :
    ComponentState :=
  runOps st (fetchCallbackOps key resp)

/-- JS `String.prototype.startsWith`, character-wise. -/
def jsStartsWith (s pre : String) : Bool := pre.data.isPrefixOf s.data

/-- `getSanitizedImageUrl` (component lines 182–192): repair known
malformed image URLs; a form matching none of the four prefixes falls off
the end of the function, i.e. yields `undefined`, modelled as `none`.
`slice(2)` is `String.drop 2`. -/
def getSanitizedImageUrl (p : OpenGraphMetaData) : Option String :=
  if jsStartsWith p.«og:image» "http" then some p.«og:image»
  else if jsStartsWith p.«og:image» "www" then some p.«og:image»
  else if jsStartsWith p.«og:image» "//www" then some ("https://" ++ p.«og:image».drop 2)
  else if jsStartsWith p.«og:image» "/yts/" then some ("https://" ++ p.source ++ p.«og:image»)
  else none

/-- The candidate link sequence of one orchestration trigger: links
extracted from the free text first, then the explicit `links` input. -/
def candidateLinks (st : ComponentState) : List String :=
  extractedLinks st.parseForLinksStr ++ st.links.getD []

/-- A sample metadata record for the concrete scenarios below. -/
def sampleMeta : OpenGraphMetaData :=
  { title := some "Example", url := some "https://example.com" }

/-- The encoded key of `https://example.com`. -/
def sampleKey : String := "aHR0cHM6Ly9leGFtcGxlLmNvbQ=="

/-- Concrete state: one explicit link, API route configured, nothing
cached, and the link's key already pending (a fetch of a previous trigger
still in flight). -/
def statePending : ComponentState :=
  { links := some ["https://example.com"], apiRoute := some "api.example.com/meta",
    pending := [sampleKey] }

/-- Concrete state: one explicit link whose fetch has completed, the
completion callback having cached the response. -/
def stateCached : ComponentState :=
  fetchComplete
    { links := some ["https://example.com"], apiRoute := some "api.example.com/meta",
      pending := [sampleKey] }
    sampleKey sampleMeta

/-- Concrete state: non-empty previews list but no `apiRoute` configured. -/
def stateNoRoute : ComponentState :=
  { links := some ["https://example.com"], previews := [sampleMeta] }

/-- Concrete state: an encodable link, then a link that cannot be
base64-encoded (the snowman is outside Latin-1), then another encodable
link — an encoding failure in the middle of the candidate list. -/
def stateEncErrMid : ComponentState :=
  { links := some ["http://good.ok", "http://☃.bad", "http://late.ok"],
    apiRoute := some "api.example.com/meta" }

/-- Concrete state: the first candidate link cannot be base64-encoded
(the snowman is outside Latin-1), the second is well-formed. -/
def stateEncErr : ComponentState :=
  { links := some ["http://☃.bad", "http://good.ok"],
    apiRoute := some "api.example.com/meta" }

theorem b64Val_b64Char : ∀ n < 64, b64Val (b64Char n) = some n := by decide

theorem b64Char_mem (n : Nat) : b64Char n ∈ base64Alphabet := by
  by_cases h : n < 64
  · revert h; revert n; decide
  · have hlen : base64Alphabet.length = 64 := by decide
    have : b64Char n = 'A' := by
      unfold b64Char
      exact List.getD_eq_default _ _ (by omega)
    rw [this]; decide

theorem b64Char_ne_pad (n : Nat) : b64Char n ≠ '=' := by
  intro h
  have hmem := b64Char_mem n
  rw [h] at hmem
  revert hmem; decide

theorem btoa_chars : ∀ (u : List Nat), ∀ c ∈ btoa u, c ∈ base64Alphabet ∨ c = '='
  | [], c, hc => by simp [btoa] at hc
  | [a], c, hc => by
    simp only [btoa, List.mem_cons, List.not_mem_nil, or_false] at hc
    rcases hc with h | h | h | h <;> subst h <;>
      first | exact Or.inl (b64Char_mem _) | exact Or.inr rfl
  | [a, b], c, hc => by
    simp only [btoa, List.mem_cons, List.not_mem_nil, or_false] at hc
    rcases hc with h | h | h | h <;> subst h <;>
      first | exact Or.inl (b64Char_mem _) | exact Or.inr rfl
  | a :: b :: d :: rest, c, hc => by
    simp only [btoa, List.mem_cons] at hc
    rcases hc with h | h | h | h | h
    · subst h; exact Or.inl (b64Char_mem _)
    · subst h; exact Or.inl (b64Char_mem _)
    · subst h; exact Or.inl (b64Char_mem _)
    · subst h; exact Or.inl (b64Char_mem _)
    · exact btoa_chars rest c h

theorem encodeURI_id (l : List Char) (h : ∀ c ∈ l, isUriUnescaped c = true) :
    encodeURI l = l := by
  induction l with
  | nil => rfl
  | cons c rest ih =>
    have hc : isUriUnescaped c = true := h c (by simp)
    simp only [encodeURI, List.flatMap_cons] at *
    rw [encodeURIChar, if_pos hc]
    simp only [List.singleton_append, List.cons.injEq, true_and]
    exact ih fun d hd => h d (by simp [hd])

theorem uriUnescape_id (l : List Char) (h : ∀ c ∈ l, c ≠ '%') :
    uriUnescape l = l := by
  induction l with
  | nil => rfl
  | cons c rest ih =>
    have hc : c ≠ '%' := h c (by simp)
    rw [uriUnescape.eq_def]
    split
    · rename_i heq; exact absurd heq (by simp)
    · rename_i h1 h2 r heq
      rw [List.cons.injEq] at heq
      exact absurd heq.1 hc
    · rename_i c' rest' hno heq
      rw [List.cons.injEq] at heq
      rw [← heq.1, ← heq.2]
      rw [ih fun d hd => h d (by simp [hd])]

theorem atob_btoa : ∀ (u : List Nat), (∀ x ∈ u, x < 256) → atob (btoa u) = some u
  | [], _ => rfl
  | [a], h => by
    have ha : a < 256 := h a (by simp)
    have h1 : b64Val (b64Char (a / 4)) = some (a / 4) := b64Val_b64Char _ (by omega)
    have h2 : b64Val (b64Char (a % 4 * 16)) = some (a % 4 * 16) := b64Val_b64Char _ (by omega)
    simp only [btoa, atob, h1, h2, Option.some_bind, reduceIte]
    have e : a / 4 * 4 + a % 4 * 16 / 16 = a := by omega
    rw [e]
  | [a, b], h => by
    have ha : a < 256 := h a (by simp)
    have hb : b < 256 := h b (by simp)
    have h1 : b64Val (b64Char (a / 4)) = some (a / 4) := b64Val_b64Char _ (by omega)
    have h2 : b64Val (b64Char (a % 4 * 16 + b / 16)) = some (a % 4 * 16 + b / 16) :=
      b64Val_b64Char _ (by omega)
    have h3 : b64Val (b64Char (b % 16 * 4)) = some (b % 16 * 4) := b64Val_b64Char _ (by omega)
    simp only [btoa, atob, h1, h2, h3, Option.some_bind, reduceIte,
      if_neg (b64Char_ne_pad (b % 16 * 4))]
    have e1 : a / 4 * 4 + (a % 4 * 16 + b / 16) / 16 = a := by omega
    have e2 : (a % 4 * 16 + b / 16) % 16 * 16 + b % 16 * 4 / 4 = b := by omega
    rw [e1, e2]
  | a :: b :: c :: rest, h => by
    have ha : a < 256 := h a (by simp)
    have hb : b < 256 := h b (by simp)
    have hc : c < 256 := h c (by simp)
    have ih := atob_btoa rest fun x hx => h x (by simp [hx])
    have h1 : b64Val (b64Char (a / 4)) = some (a / 4) := b64Val_b64Char _ (by omega)
    have h2 : b64Val (b64Char (a % 4 * 16 + b / 16)) = some (a % 4 * 16 + b / 16) :=
      b64Val_b64Char _ (by omega)
    have h3 : b64Val (b64Char (b % 16 * 4 + c / 64)) = some (b % 16 * 4 + c / 64) :=
      b64Val_b64Char _ (by omega)
    have h4 : b64Val (b64Char (c % 64)) = some (c % 64) := b64Val_b64Char _ (by omega)
    simp only [btoa, atob, h1, h2, h3, h4, Option.some_bind,
      if_neg (b64Char_ne_pad (c % 64)), ih]
    have e1 : a / 4 * 4 + (a % 4 * 16 + b / 16) / 16 = a := by omega
    have e2 : (a % 4 * 16 + b / 16) % 16 * 16 + (b % 16 * 4 + c / 64) / 4 = b := by omega
    have e3 : (b % 16 * 4 + c / 64) % 4 * 64 + c % 64 = c := by omega
    rw [e1, e2, e3]

theorem alphabet_unescaped : ∀ c ∈ base64Alphabet, isUriUnescaped c = true := by decide

theorem alphabet_ne_percent : ∀ c ∈ base64Alphabet, c ≠ '%' := by decide

theorem alphabet_query_safe : ∀ c ∈ base64Alphabet, isUriQueryValueChar c = true := by decide

/-- The encoded key is literally the base64 text: `encodeURI` escapes none
of the characters `btoa` produces. -/
theorem encodeUrlSafe_eq_btoa (u key : String) (h : encodeUrlSafe u = .ok key) :
    (∀ c ∈ u.data, c.toNat < 256) ∧ key.data = btoa (u.data.map Char.toNat) := by
  unfold encodeUrlSafe at h
  split at h
  · rename_i hall
    rw [List.all_eq_true] at hall
    refine ⟨fun c hc => by simpa using hall c hc, ?_⟩
    cases h with
    | refl =>
      exact congrArg String.data
        (congrArg String.mk (encodeURI_id _ fun c hc => by
          rcases btoa_chars _ c hc with hm | he
          · exact alphabet_unescaped c hm
          · subst he; decide))
  · cases h

/-- C5: URI-unescaping and then base64-decoding the key produced by
`encodeUrlSafe` recovers the original URL exactly, for every URL whose
characters are representable in the base64 input encoding (which is
exactly when `encodeUrlSafe` succeeds). -/
theorem encodeUrlSafe_roundtrip (u key : String) (h : encodeUrlSafe u = .ok key) :
    decodeKey key = some u := by
  obtain ⟨hlt, hkey⟩ := encodeUrlSafe_eq_btoa u key h
  have hnp : ∀ c ∈ key.data, c ≠ '%' := by
    rw [hkey]
    intro c hc
    rcases btoa_chars _ c hc with hm | he
    · exact alphabet_ne_percent c hm
    · subst he; decide
  have hbytes : ∀ x ∈ u.data.map Char.toNat, x < 256 := by
    intro x hx
    rcases List.mem_map.mp hx with ⟨c, hc, rfl⟩
    exact hlt c hc
  unfold decodeKey
  rw [uriUnescape_id _ hnp, hkey, atob_btoa _ hbytes]
  simp only [Option.map_some', Option.some.injEq]
  have : (u.data.map Char.toNat).map Char.ofNat = u.data := by
    rw [List.map_map]
    conv_rhs => rw [← List.map_id u.data]
    exact List.map_congr_left fun c _ => Char.ofNat_toNat c
  rw [this]

/-- Closed witness for the C5 round-trip at the concrete URL "ab". -/
theorem encodeUrlSafe_roundtrip_witness :
    encodeUrlSafe "ab" = .ok "YWI=" ∧ decodeKey "YWI=" = some "ab" :=
  ⟨by rfl, encodeUrlSafe_roundtrip "ab" "YWI=" (by rfl)⟩

/-- C8: `encodeUrlSafe` is deterministic (a pure function of its input),
and every character of a successfully produced key is a legal URI
query-value character (hence also usable inside a cache key). -/
theorem encodeUrlSafe_deterministic_query_safe (u : String) :
    (∀ k1 k2, encodeUrlSafe u = .ok k1 → encodeUrlSafe u = .ok k2 → k1 = k2) ∧
    (∀ key, encodeUrlSafe u = .ok key → ∀ c ∈ key.data, isUriQueryValueChar c = true) := by
  constructor
  · intro k1 k2 h1 h2
    rw [h1] at h2
    exact (Except.ok.injEq _ _ ▸ h2 : k1 = k2)
  · intro key h c hc
    obtain ⟨hlt, hkey⟩ := encodeUrlSafe_eq_btoa u key h
    rw [hkey] at hc
    rcases btoa_chars _ c hc with hm | he
    · exact alphabet_query_safe c hm
    · subst he; decide

/-- Closed witness for C8 at the concrete URL "ab", key "YWI=". -/
theorem encodeUrlSafe_deterministic_query_safe_witness :
    "YWI=".data.all isUriQueryValueChar = true :=
  List.all_eq_true.mpr fun c hc =>
    (encodeUrlSafe_deterministic_query_safe "ab").2 "YWI=" (by rfl) c hc

/-! The URL regex of `parseStringForLinks`:
`/https?:\/\/(www\.)?[-a-zA-Z0-9@:%._+~#=]{1,256}\.[a-zA-Z0-9()]{1,6}\b([-a-zA-Z0-9()@:%_+.~#?&\/=]*)/gim`
modelled as an explicit backtracking matcher. Alternatives are tried in
the engine's priority order (greedy quantifiers longest-first), so the
first success found is the one the JS engine reports. -/

theorem initLoop_cache (links : List String) :
    ∀ st ds, (initLoop st ds links).state.cache = st.cache := by
  induction links with
  | nil => intro st ds; rfl
  | cons link rest ih =>
    intro st ds
    simp only [initLoop]
    split
    · rfl
    · split
      · split
        · exact ih _ _
        · exact ih _ _
      · exact ih _ _

theorem initLoop_scanned (links : List String) :
    ∀ st ds, (initLoop st ds links).state.scannedLinks = st.scannedLinks := by
  induction links with
  | nil => intro st ds; rfl
  | cons link rest ih =>
    intro st ds
    simp only [initLoop]
    split
    · rfl
    · split
      · split
        · exact ih _ _
        · exact ih _ _
      · exact ih _ _

theorem initLoop_previews_prefix (links : List String) :
    ∀ st ds, ∃ extra, (initLoop st ds links).state.previews = st.previews ++ extra := by
  induction links with
  | nil => intro st ds; exact ⟨[], (List.append_nil _).symm⟩
  | cons link rest ih =>
    intro st ds
    simp only [initLoop]
    split
    · exact ⟨[], (List.append_nil _).symm⟩
    · rename_i key heq
      split
      · split
        · rename_i item hitem
          obtain ⟨extra, hx⟩ := ih { st with previews := st.previews ++ [item] } ds
          exact ⟨item :: extra, by rw [hx]; simp⟩
        · exact ih _ _
      · exact ih _ _

theorem initLoop_dispatches_prefix (links : List String) :
    ∀ st ds, ∃ extra, (initLoop st ds links).dispatches = ds ++ extra := by
  induction links with
  | nil => intro st ds; exact ⟨[], (List.append_nil _).symm⟩
  | cons link rest ih =>
    intro st ds
    simp only [initLoop]
    split
    · exact ⟨[], (List.append_nil _).symm⟩
    · rename_i key heq
      split
      · split
        · exact ih _ _
        · rename_i hnone
          obtain ⟨extra, hx⟩ := ih { st with pending := addTask st.pending key }
              (ds ++ [(key, st.apiRoute.getD "" ++ "?" ++ st.queryParamName ++ "=" ++ key)])
          exact ⟨(key, st.apiRoute.getD "" ++ "?" ++ st.queryParamName ++ "=" ++ key) :: extra,
            by rw [hx]; simp⟩
      · obtain ⟨extra, hx⟩ := ih { st with pending := addTask st.pending key }
            (ds ++ [(key, st.apiRoute.getD "" ++ "?" ++ st.queryParamName ++ "=" ++ key)])
        exact ⟨(key, st.apiRoute.getD "" ++ "?" ++ st.queryParamName ++ "=" ++ key) :: extra,
          by rw [hx]; simp⟩

theorem initLoop_dispatches_not_cached (links : List String) :
    ∀ st ds, st.useCache = true →
      ∀ kr ∈ (initLoop st ds links).dispatches, kr ∈ ds ∨ getCacheItem st.cache kr.1 = none := by
  induction links with
  | nil => intro st ds hu kr hkr; exact Or.inl hkr
  | cons link rest ih =>
    intro st ds hu kr hkr
    simp only [initLoop] at hkr
    split at hkr
    · exact Or.inl hkr
    · rename_i key heq
      split at hkr
      · split at hkr
        · rename_i item hitem
          exact ih { st with previews := st.previews ++ [item] } ds hu kr hkr
        · rename_i hnone
          rcases ih { st with pending := addTask st.pending key }
              (ds ++ [(key, st.apiRoute.getD "" ++ "?" ++ st.queryParamName ++ "=" ++ key)])
              hu kr hkr with hin | hcc
          · rcases List.mem_append.mp hin with hin' | hin'
            · exact Or.inl hin'
            · have hkr1 : kr = (key, st.apiRoute.getD "" ++ "?" ++ st.queryParamName ++ "=" ++ key) :=
                List.mem_singleton.mp hin'
              subst hkr1
              exact Or.inr hnone
          · exact Or.inr hcc
      · rename_i hnu
        exact absurd hu hnu

theorem initLoop_mem_dispatches (links : List String) :
    ∀ st ds link key, link ∈ links →
      (∀ l ∈ links, (encodeUrlSafe l).isOk = true) →
      encodeUrlSafe link = .ok key →
      getCacheItem st.cache key = none →
      key ∈ (initLoop st ds links).dispatches.map Prod.fst := by
  induction links with
  | nil => intro st ds link key h _ _ _; exact absurd h (List.not_mem_nil _)
  | cons l0 rest ih =>
    intro st ds link key hmem hall henc hcache
    simp only [initLoop]
    split
    · rename_i e heq0
      have hok := hall l0 (List.mem_cons_self l0 rest)
      rw [heq0] at hok
      simp [Except.isOk, Except.toBool] at hok
    · rename_i k0 heq0
      have hall' : ∀ l ∈ rest, (encodeUrlSafe l).isOk = true :=
        fun l hl => hall l (List.mem_cons_of_mem _ hl)
      rcases List.mem_cons.mp hmem with rfl | hmem'
      · have hk : k0 = key := by
          rw [henc] at heq0
          exact (Except.ok.injEq _ _ ▸ heq0).symm
        subst hk
        split
        · split
          · rename_i item hitem
            rw [hitem] at hcache
            cases hcache
          · obtain ⟨extra, hx⟩ := initLoop_dispatches_prefix rest
              { st with pending := addTask st.pending k0 }
              (ds ++ [(k0, st.apiRoute.getD "" ++ "?" ++ st.queryParamName ++ "=" ++ k0)])
            rw [hx]
            simp
        · obtain ⟨extra, hx⟩ := initLoop_dispatches_prefix rest
            { st with pending := addTask st.pending k0 }
            (ds ++ [(k0, st.apiRoute.getD "" ++ "?" ++ st.queryParamName ++ "=" ++ k0)])
          rw [hx]
          simp
      · split
        · split
          · rename_i item hitem
            exact ih { st with previews := st.previews ++ [item] } ds link key hmem' hall' henc hcache
          · exact ih { st with pending := addTask st.pending k0 }
              (ds ++ [(k0, st.apiRoute.getD "" ++ "?" ++ st.queryParamName ++ "=" ++ k0)])
              link key hmem' hall' henc hcache
        · exact ih { st with pending := addTask st.pending k0 }
            (ds ++ [(k0, st.apiRoute.getD "" ++ "?" ++ st.queryParamName ++ "=" ++ k0)])
            link key hmem' hall' henc hcache

theorem initLoop_cached_mem_previews (links : List String) :
    ∀ st ds link key item, link ∈ links →
      (∀ l ∈ links, (encodeUrlSafe l).isOk = true) →
      encodeUrlSafe link = .ok key →
      st.useCache = true →
      getCacheItem st.cache key = some item →
      item ∈ (initLoop st ds links).state.previews := by
  induction links with
  | nil => intro st ds link key item h _ _ _ _; exact absurd h (List.not_mem_nil _)
  | cons l0 rest ih =>
    intro st ds link key item hmem hall henc hu hcache
    simp only [initLoop]
    split
    · rename_i e heq0
      have hok := hall l0 (List.mem_cons_self l0 rest)
      rw [heq0] at hok
      simp [Except.isOk, Except.toBool] at hok
    · rename_i k0 heq0
      have hall' : ∀ l ∈ rest, (encodeUrlSafe l).isOk = true :=
        fun l hl => hall l (List.mem_cons_of_mem _ hl)
      rcases List.mem_cons.mp hmem with rfl | hmem'
      · have hk : k0 = key := by
          rw [henc] at heq0
          exact (Except.ok.injEq _ _ ▸ heq0).symm
        subst hk
        split
        · split
          · rename_i item' hitem
            rw [hitem] at hcache
            have hii : item' = item := by
              cases hcache
              rfl
            subst hii
            obtain ⟨extra, hx⟩ := initLoop_previews_prefix rest
              { st with previews := st.previews ++ [item'] } ds
            rw [hx]
            simp
          · rename_i hnone
            rw [hnone] at hcache
            cases hcache
        · rename_i hnu
          exact absurd hu hnu
      · split
        · split
          · rename_i item0 hitem
            exact ih { st with previews := st.previews ++ [item0] } ds link key item
              hmem' hall' henc hu hcache
          · exact ih { st with pending := addTask st.pending k0 }
              (ds ++ [(k0, st.apiRoute.getD "" ++ "?" ++ st.queryParamName ++ "=" ++ k0)])
              link key item hmem' hall' henc hu hcache
        · rename_i hnu
          exact absurd hu hnu

theorem init_ok (st : ComponentState) (h1 : strTruthy st.apiRoute = true)
    (h2 : st.hasGetApiEndpoint = true) :
    init st = initLoop { st with scannedLinks := candidateLinks st, previews := [] } []
        (candidateLinks st) := by
  obtain ⟨a, har, ha⟩ : ∃ a, st.apiRoute = some a ∧ ¬ a = "" := by
    cases har : st.apiRoute with
    | none => rw [har] at h1; simp [strTruthy] at h1
    | some a =>
      refine ⟨a, rfl, ?_⟩
      rw [har] at h1
      simpa [strTruthy] using h1
  cases hpf : st.parseForLinksStr with
  | none =>
    cases hls : st.links with
    | none => simp [init, candidateLinks, extractedLinks, strTruthy, hpf, hls, har, ha, h2]
    | some ls =>
      by_cases hlen : ls.length = 0
      · have hnil : ls = [] := List.length_eq_zero.mp hlen
        subst hnil
        simp [init, candidateLinks, extractedLinks, strTruthy, hpf, hls, har, ha, h2]
      · simp [init, candidateLinks, extractedLinks, strTruthy, hpf, hls, har, ha, h2, hlen]
  | some s =>
    by_cases hs : s = ""
    · subst hs
      cases hls : st.links with
      | none => simp [init, candidateLinks, extractedLinks, strTruthy, hpf, hls, har, ha, h2]
      | some ls =>
        by_cases hlen : ls.length = 0
        · have hnil : ls = [] := List.length_eq_zero.mp hlen
          subst hnil
          simp [init, candidateLinks, extractedLinks, strTruthy, hpf, hls, har, ha, h2]
        · simp [init, candidateLinks, extractedLinks, strTruthy, hpf, hls, har, ha, h2, hlen]
    · cases hls : st.links with
      | none => simp [init, candidateLinks, extractedLinks, strTruthy, hpf, hls, har, ha, h2, hs]
      | some ls =>
        by_cases hlen : ls.length = 0
        · have hnil : ls = [] := List.length_eq_zero.mp hlen
          subst hnil
          simp [init, candidateLinks, extractedLinks, strTruthy, hpf, hls, har, ha, h2, hs]
        · simp [init, candidateLinks, extractedLinks, strTruthy, hpf, hls, har, ha, h2, hs, hlen]

/-- C4: on a successfully configured trigger, the candidate link sequence
recorded in `scannedLinks` is exactly the links extracted from the
free-text input (in order of appearance) followed by the explicit `links`
input (in its given order). -/
theorem init_scannedLinks_eq (st : ComponentState)
    (h1 : strTruthy st.apiRoute = true) (h2 : st.hasGetApiEndpoint = true) :
    (init st).state.scannedLinks =
      extractedLinks st.parseForLinksStr ++ st.links.getD [] := by
  rw [init_ok st h1 h2, initLoop_scanned]
  rfl

/-- Closed witness for C4 on a concrete state: one link from free text,
one explicit link, extracted link first. -/
theorem init_scannedLinks_eq_witness :
    (init { parseForLinksStr := some "see http://a.bc ok",
            links := some ["https://x.yz"],
            apiRoute := some "r" }).state.scannedLinks
      = ["http://a.bc", "https://x.yz"] := by
  rw [init_scannedLinks_eq _ (by rfl) (by rfl)]
  rfl

/-- C2: a candidate link whose encoded key is absent from the cache is
fetched by the trigger even when that key is already in the pending set:
a re-trigger while the key is pending but not yet cached dispatches a
second, duplicate fetch for the key. -/
theorem init_dispatches_uncached_pending (st : ComponentState)
    (h1 : strTruthy st.apiRoute = true) (h2 : st.hasGetApiEndpoint = true)
    (hall : ∀ l ∈ candidateLinks st, (encodeUrlSafe l).isOk = true)
    (link key : String) (hmem : link ∈ candidateLinks st)
    (henc : encodeUrlSafe link = .ok key)
    (hcache : getCacheItem st.cache key = none)
    (_hpend : key ∈ st.pending) :
    key ∈ (init st).dispatches.map Prod.fst := by
  rw [init_ok st h1 h2]
  exact initLoop_mem_dispatches _ _ _ link key hmem hall henc hcache

/-- Closed witness for C2: the key of the sole candidate link is pending
from a previous trigger and not cached; the new trigger dispatches a
fetch for it anyway. -/
theorem init_dispatches_uncached_pending_witness :
    sampleKey ∈ (init statePending).dispatches.map Prod.fst :=
  init_dispatches_uncached_pending statePending (by rfl) (by rfl)
    (by decide) "https://example.com" sampleKey (by decide) (by rfl) (by rfl)
    (by decide)

/-- C3: with cache usage enabled, a candidate link whose key has a cache
entry gets that cached record appended to the visible list synchronously,
and no fetch is dispatched for that key by the run. -/
theorem init_cache_hit (st : ComponentState)
    (h1 : strTruthy st.apiRoute = true) (h2 : st.hasGetApiEndpoint = true)
    (hall : ∀ l ∈ candidateLinks st, (encodeUrlSafe l).isOk = true)
    (hu : st.useCache = true)
    (link key : String) (item : OpenGraphMetaData)
    (hmem : link ∈ candidateLinks st)
    (henc : encodeUrlSafe link = .ok key)
    (hcache : getCacheItem st.cache key = some item) :
    item ∈ (init st).state.previews ∧
      key ∉ (init st).dispatches.map Prod.fst := by
  rw [init_ok st h1 h2]
  constructor
  · exact initLoop_cached_mem_previews _ _ _ link key item hmem hall henc hu hcache
  · intro hk
    rcases List.mem_map.mp hk with ⟨kr, hkr, hfst⟩
    rcases initLoop_dispatches_not_cached (candidateLinks st)
        { st with scannedLinks := candidateLinks st, previews := [] } [] hu kr hkr with hin | hnone
    · exact absurd hin (List.not_mem_nil kr)
    · rw [hfst] at hnone
      exact absurd (hcache.symm.trans hnone) (by simp)

/-- Closed witness for C3: after the first fetch completed and was
cached, a second orchestration run serves the preview from the cache and
dispatches no fetch for that key. -/
theorem init_cache_hit_witness :
    sampleMeta ∈ (init stateCached).state.previews ∧
      sampleKey ∉ (init stateCached).dispatches.map Prod.fst :=
  init_cache_hit stateCached (by rfl) (by rfl) (by decide) (by rfl)
    "https://example.com" sampleKey sampleMeta (by decide) (by rfl) (by decide)

/-- C1 counterexample: with `apiRoute` absent and a non-empty previews
list, the trigger does raise the configuration error, but the previews
list observable by the caller is NOT unchanged: `init` resets it to `[]`
before `checkInputParameters` throws. -/
theorem init_missing_apiRoute_mutates :
    (init stateNoRoute).err = some InitError.missingApiRoute ∧
    (init stateNoRoute).state.previews = [] ∧
    stateNoRoute.previews ≠ [] :=
  ⟨rfl, rfl, by decide⟩

/-- C1 (amended): with `apiRoute` falsy or the fetch function absent, the
trigger raises the matching configuration error and dispatches no fetch,
but the visible previews list is reset to empty (not left unchanged). -/
theorem init_config_error (st : ComponentState)
    (h : strTruthy st.apiRoute = false ∨ st.hasGetApiEndpoint = false) :
    ((init st).err = some InitError.missingApiRoute ∨
      (init st).err = some InitError.missingGetApiEndpoint) ∧
    (init st).dispatches = [] ∧ (init st).state.previews = [] := by
  by_cases hA : strTruthy st.apiRoute = true
  · have hG : st.hasGetApiEndpoint = false := by
      rcases h with h | h
      · rw [hA] at h; cases h
      · exact h
    unfold init
    rw [if_neg (by simp [hA]), if_pos (by simp [hG])]
    exact ⟨Or.inr (by trivial), by trivial, by trivial⟩
  · unfold init
    rw [if_pos (by simpa using hA)]
    exact ⟨Or.inl (by trivial), by trivial, by trivial⟩

/-- Closed witness for the amended C1 at the concrete no-route state. -/
theorem init_config_error_witness :
    ((init stateNoRoute).err = some InitError.missingApiRoute ∨
      (init stateNoRoute).err = some InitError.missingGetApiEndpoint) ∧
    (init stateNoRoute).dispatches = [] ∧ (init stateNoRoute).state.previews = [] :=
  init_config_error stateNoRoute (Or.inl rfl)

/-- C7 counterexample: the first candidate link fails encoding; the
second, encodable sibling is NOT processed — the run aborts with the
error, dispatching nothing and appending nothing. -/
theorem init_encoding_error_not_contained :
    candidateLinks stateEncErr = ["http://☃.bad", "http://good.ok"] ∧
    (encodeUrlSafe "http://good.ok").isOk = true ∧
    (init stateEncErr).err = some (InitError.encodingError "http://☃.bad") ∧
    (init stateEncErr).dispatches = [] ∧
    (init stateEncErr).state.previews = [] :=
  ⟨rfl, rfl, rfl, rfl, rfl⟩

theorem initLoop_append_error (pre : List String) :
    ∀ st ds (bad : String) (rest : List String) (e : EncodingError),
      (∀ l ∈ pre, (encodeUrlSafe l).isOk = true) →
      encodeUrlSafe bad = .error e →
      initLoop st ds (pre ++ bad :: rest) =
        ⟨(initLoop st ds pre).state, (initLoop st ds pre).dispatches,
          some (.encodingError bad)⟩ := by
  induction pre with
  | nil =>
    intro st ds bad rest e hpre hbad
    simp only [List.nil_append, initLoop, hbad]
  | cons p pre' ih =>
    intro st ds bad rest e hpre hbad
    have hp := hpre p (List.mem_cons_self p pre')
    have hpre' : ∀ l ∈ pre', (encodeUrlSafe l).isOk = true :=
      fun l hl => hpre l (List.mem_cons_of_mem _ hl)
    simp only [List.cons_append, initLoop]
    cases hep : encodeUrlSafe p with
    | error e' => rw [hep] at hp; simp [Except.isOk, Except.toBool] at hp
    | ok key =>
      by_cases hu : st.useCache = true
      · simp only [if_pos hu]
        cases hc : getCacheItem st.cache key with
        | some item =>
          exact ih { st with previews := st.previews ++ [item] } ds bad rest e hpre' hbad
        | none =>
          exact ih { st with pending := addTask st.pending key }
            (ds ++ [(key, st.apiRoute.getD "" ++ "?" ++ st.queryParamName ++ "=" ++ key)])
            bad rest e hpre' hbad
      · simp only [if_neg hu]
        exact ih { st with pending := addTask st.pending key }
          (ds ++ [(key, st.apiRoute.getD "" ++ "?" ++ st.queryParamName ++ "=" ++ key)])
          bad rest e hpre' hbad

/-- C7 (amended): an encoding failure is not contained to the offending
link: wherever the failing link sits in the candidate list, the error
aborts the orchestration run right there — the whole run equals the run
over the candidates before the failing link, so that link and every
remaining candidate link after it are not processed (no fetch dispatched
and no preview appended for any of them). -/
theorem init_encoding_error_aborts (st : ComponentState)
    (h1 : strTruthy st.apiRoute = true) (h2 : st.hasGetApiEndpoint = true)
    (pre : List String) (bad : String) (rest : List String)
    (hcand : candidateLinks st = pre ++ bad :: rest)
    (hpre : ∀ l ∈ pre, (encodeUrlSafe l).isOk = true)
    (hbad : encodeUrlSafe bad = .error .invalidCharacter) :
    init st =
      ⟨(initLoop { st with scannedLinks := candidateLinks st, previews := [] } [] pre).state,
       (initLoop { st with scannedLinks := candidateLinks st, previews := [] } [] pre).dispatches,
       some (InitError.encodingError bad)⟩ := by
  rw [init_ok st h1 h2, hcand]
  exact initLoop_append_error pre _ [] bad rest _ hpre hbad

/-- Closed witness for the amended C7: the failing link sits in the
middle of the candidate list; the earlier link's fetch was dispatched,
the error names the failing link, and the later link contributes
nothing. -/
theorem init_encoding_error_aborts_witness :
    (init stateEncErrMid).err = some (InitError.encodingError "http://☃.bad") ∧
    (init stateEncErrMid).dispatches.map Prod.fst = ["aHR0cDovL2dvb2Qub2s="] ∧
    (init stateEncErrMid).state.previews = [] := by
  have h := init_encoding_error_aborts stateEncErrMid (by rfl) (by rfl)
      ["http://good.ok"] "http://☃.bad" ["http://late.ok"] (by rfl) (by decide) (by rfl)
  rw [h]
  exact ⟨rfl, by decide, rfl⟩

theorem scanLinks_eq_nil (s : List Char)
    (h : ∀ j < s.length, matchAt s j = none) :
    ∀ fuel i, scanLinks s fuel i = [] := by
  intro fuel
  induction fuel with
  | zero => intro i; rfl
  | succ n ih =>
    intro i
    simp only [scanLinks]
    split
    · rename_i hi
      rw [h i hi]
      exact ih (i + 1)
    · rfl

/-- C6: the Link Extractor is total over its input domain — absent input
is guarded falsy at the call site and contributes nothing, the empty
string yields the empty sequence, and any string with no position where
the URL pattern matches yields the empty sequence. (Being a total Lean
function, the model by construction raises nothing.) -/
theorem parseStringForLinks_total :
    extractedLinks none = [] ∧ parseStringForLinks "" = [] ∧
    ∀ s : String, (∀ j < s.data.length, matchAt s.data j = none) →
      parseStringForLinks s = [] := by
  refine ⟨rfl, rfl, ?_⟩
  intro s h
  unfold parseStringForLinks
  rw [scanLinks_eq_nil s.data h s.data.length 0]
  rfl

/-- Closed witness for C6 on a concrete match-free string. -/
theorem parseStringForLinks_total_witness :
    parseStringForLinks "no links here" = [] :=
  parseStringForLinks_total.2.2 "no links here" (by decide)

theorem jsStartsWith_data (s pre : String) (h : jsStartsWith s pre = true) :
    ∃ t, s.data = pre.data ++ t := by
  unfold jsStartsWith at h
  rw [List.isPrefixOf_iff_prefix] at h
  obtain ⟨t, ht⟩ := h
  exact ⟨t, ht.symm⟩

/-- C9: the image URL repair helper passes through images starting with
`http` or `www` unchanged, rewrites a protocol-relative `//www…` image to
`https://` plus the image without its two leading slashes, rewrites a
`/yts/…` image to `https://` + the record's `source` + the image, and
yields no output on any other form. -/
theorem getSanitizedImageUrl_spec (p : OpenGraphMetaData) :
    (jsStartsWith p.«og:image» "http" = true ∨ jsStartsWith p.«og:image» "www" = true →
      getSanitizedImageUrl p = some p.«og:image») ∧
    (jsStartsWith p.«og:image» "//www" = true →
      getSanitizedImageUrl p = some ("https://" ++ p.«og:image».drop 2)) ∧
    (jsStartsWith p.«og:image» "/yts/" = true →
      getSanitizedImageUrl p = some ("https://" ++ p.source ++ p.«og:image»)) ∧
    (jsStartsWith p.«og:image» "http" = false → jsStartsWith p.«og:image» "www" = false →
      jsStartsWith p.«og:image» "//www" = false → jsStartsWith p.«og:image» "/yts/" = false →
      getSanitizedImageUrl p = none) := by
  refine ⟨?_, ?_, ?_, ?_⟩
  · rintro (h | h)
    · simp [getSanitizedImageUrl, h]
    · by_cases hh : jsStartsWith p.«og:image» "http" = true
      · simp [getSanitizedImageUrl, hh]
      · simp [getSanitizedImageUrl, hh, h]
  · intro h
    obtain ⟨t, ht⟩ := jsStartsWith_data _ _ h
    have hh : jsStartsWith p.«og:image» "http" = false := by
      unfold jsStartsWith
      rw [ht]
      rfl
    have hw : jsStartsWith p.«og:image» "www" = false := by
      unfold jsStartsWith
      rw [ht]
      rfl
    simp [getSanitizedImageUrl, hh, hw, h]
  · intro h
    obtain ⟨t, ht⟩ := jsStartsWith_data _ _ h
    have hh : jsStartsWith p.«og:image» "http" = false := by
      unfold jsStartsWith
      rw [ht]
      rfl
    have hw : jsStartsWith p.«og:image» "www" = false := by
      unfold jsStartsWith
      rw [ht]
      rfl
    have hww : jsStartsWith p.«og:image» "//www" = false := by
      unfold jsStartsWith
      rw [ht]
      rfl
    simp [getSanitizedImageUrl, hh, hw, hww, h]
  · intro h1 h2 h3 h4
    simp [getSanitizedImageUrl, h1, h2, h3, h4]

/-- Closed witness for C9 at a concrete `//www…` image. -/
theorem getSanitizedImageUrl_spec_witness :
    getSanitizedImageUrl { «og:image» := "//www.x.com/i.png" }
      = some "https://www.x.com/i.png" := by
  rw [(getSanitizedImageUrl_spec { «og:image» := "//www.x.com/i.png" }).2.1 (by rfl)]
  rfl

theorem getCacheItem_updateCacheItem (c : List (String × OpenGraphMetaData))
    (k : String) (v : OpenGraphMetaData) :
    getCacheItem (updateCacheItem c k v) k = some v := by
  simp [getCacheItem, updateCacheItem]

/-- C10: along the fetch-completion callback the cache write comes first:
after any prefix of the callback's operations, if the key has left the
pending set (it was pending before), the response is already cached; and
the completed callback leaves the response cached, the key deregistered,
and the response appended to the visible list. -/
theorem fetchCallback_cache_before_remove (st : ComponentState) (key : String)
    (resp : OpenGraphMetaData) (hpend : key ∈ st.pending) :
    (∀ n, key ∉ (runOps st ((fetchCallbackOps key resp).take n)).pending →
      getCacheItem (runOps st ((fetchCallbackOps key resp).take n)).cache key = some resp) ∧
    getCacheItem (fetchComplete st key resp).cache key = some resp ∧
    key ∉ (fetchComplete st key resp).pending ∧
    (fetchComplete st key resp).previews = st.previews ++ [resp] := by
  refine ⟨?_, ?_, ?_, ?_⟩
  · intro n hn
    match n with
    | 0 => exact absurd hpend hn
    | 1 => exact absurd hpend hn
    | 2 => exact getCacheItem_updateCacheItem st.cache key resp
    | (m + 3) =>
      rw [List.take_of_length_le (by simp [fetchCallbackOps])]
      exact getCacheItem_updateCacheItem st.cache key resp
  · exact getCacheItem_updateCacheItem st.cache key resp
  · simp [fetchComplete, runOps, applyOp, fetchCallbackOps, removeTask, List.mem_filter]
  · rfl

/-- Closed witness for C10 at a concrete pending state. -/
theorem fetchCallback_cache_before_remove_witness :
    getCacheItem (fetchComplete statePending sampleKey sampleMeta).cache sampleKey
        = some sampleMeta ∧
    sampleKey ∉ (fetchComplete statePending sampleKey sampleMeta).pending :=
  ⟨(fetchCallback_cache_before_remove statePending sampleKey sampleMeta (by decide)).2.1,
   (fetchCallback_cache_before_remove statePending sampleKey sampleMeta (by decide)).2.2.1⟩

end NgxLinkPreview
